import Mathlib

/-!
Verification of the cleanup engine of the Xcode Cleanup Tool
(`xcode_cleanup.py`): a shallow embedding of the measurement service
(`get_directory_size`), the deletion executor (`clean_directory`,
`execute_command`) and the orchestrator (`perform_cleanup`), together with
proofs of the specified properties.

The filesystem is modelled as a list of nodes keyed by component paths;
external subprocess invocations (`du`, the maintenance command) are modelled
as oracle functions supplied by an environment record.
-/

namespace XcodeCleanup

/-- Result of a `subprocess.run` call: either the process completed with an
exit code and captured stdout, or the invocation raised an exception
(missing executable, timeout). -/
inductive ProcResult where
  | completed (returncode : Int) (stdout : String)
  | exn (msg : String)
deriving Repr, DecidableEq

/-- A filesystem path, split into components (the result of splitting the
expanded path string on the separator). -/
abbrev EPath := List String

/-- One filesystem entry: its path, whether it is a directory, whether an
attempt to delete it succeeds, and the exception text raised when it does
not. -/
structure FSNode where
  path : EPath
  isDir : Bool
  removable : Bool
  errMsg : String
deriving Repr, DecidableEq

/-- Filesystem state: the list of existing entries. -/
abbrev FS := List FSNode

/-- `pfx p q` holds when path `q` lies in the subtree rooted at `p`
(including `p` itself): `p` is a leading run of components of `q`. -/
def pfx : EPath → EPath → Bool
  | [], _ => true
  | _ :: _, [] => false
  | a :: p, b :: q => a == b && pfx p q

/-- The external world the engine runs against: the home directory used for
`~` expansion, the outcome of running `du -sh` on a path in a given
filesystem state, and the outcome of running a tokenized external command. -/
structure Env where
  home : String
  du : FS → String → ProcResult
  run : List String → ProcResult

/-- Split a character list at every character satisfying `p` (the splitting
underlying Python's `str.split(sep)`): separators delimit possibly-empty
fields, and the empty input has one empty field. -/
def splitBy (p : Char → Bool) : List Char → List (List Char)
  | [] => [[]]
  | ch :: rest =>
    match splitBy p rest with
    | comp :: comps => if p ch then [] :: comp :: comps else (ch :: comp) :: comps
    | [] => [[]]

/-- Python's `s.split(sep)` for a one-character separator. -/
def pySplitOn (sep : Char) (s : String) : List String :=
  (splitBy (fun c => c == sep) s.data).map String.mk

/-- Python's `s.strip()`: drop leading and trailing whitespace. -/
def pyStrip (s : String) : String :=
  String.mk (((s.data.dropWhile Char.isWhitespace).reverse.dropWhile
    Char.isWhitespace).reverse)

/-- `os.path.expanduser`: replace a leading `~` with the home directory. -/
def expanduser (home : String) (p : String) : String :=
  match p.data with
  | '~' :: rest => home ++ String.mk rest
  | _ => p

/-- Split an expanded path string into components. -/
def toPath (s : String) : EPath := pySplitOn '/' s

/-- `os.path.exists`. -/
def fs_exists (fs : FS) (p : EPath) : Bool := fs.any (fun n => n.path == p)

/-- `os.path.isdir` (false for a missing path). -/
def fs_isdir (fs : FS) (p : EPath) : Bool :=
  match fs.find? (fun n => n.path == p) with
  | some n => n.isDir
  | none => false

/-- If `q` is an immediate child of `p`, its final component (entry name). -/
def childName (p : EPath) (q : EPath) : Option String :=
  if q.length == p.length + 1 && pfx p q then q.getLast? else none

/-- `os.listdir`: the names of the immediate children of `p`. -/
def os_listdir (fs : FS) (p : EPath) : List String :=
  fs.filterMap (fun n => childName p n.path)

/-- `shutil.rmtree`: delete the whole subtree rooted at `p`; raises the
first non-removable node's exception text. -/
def shutil_rmtree (fs : FS) (p : EPath) : Except String FS :=
  match fs.find? (fun n => pfx p n.path && !n.removable) with
  | some n => .error n.errMsg
  | none => .ok (fs.filter (fun n => !(pfx p n.path)))

/-- `os.remove`: delete the single entry at `p`; raises when it is missing
or not removable. -/
def os_remove (fs : FS) (p : EPath) : Except String FS :=
  match fs.find? (fun n => n.path == p) with
  | some n =>
    if n.removable then .ok (fs.filter (fun m => !(m.path == p))) else .error n.errMsg
  | none => .error "No such file or directory"

/-- The deletion loop of `clean_directory`: for each listed entry name, join
it to the base path and delete it (`shutil.rmtree` for directories,
`os.remove` otherwise). The first exception aborts the loop; the returned
state keeps the deletions already performed. -/
def removeLoop (fs : FS) (base : EPath) : List String → FS × Option String
  | [] => (fs, none)
  | item :: rest =>
    match (if fs_isdir fs (base ++ [item]) then shutil_rmtree fs (base ++ [item])
           else os_remove fs (base ++ [item])) with
    | .ok fs' => removeLoop fs' base rest
    | .error e => (fs, some e)

/-- `get_directory_size`: expand the path, report `("Not found", 0)` when it
does not exist, otherwise run `du -sh` and parse its first tab field;
a nonzero exit code or a raised exception yields `("Error", 0)`. -/
def get_directory_size (env : Env) (fs : FS) (path : String) : String × Nat :=
  let expanded := expanduser env.home path
  if !(fs_exists fs (toPath expanded)) then ("Not found", 0)
  else
    match env.du fs expanded with
    | .completed rc out =>
      if rc = 0 then (pyStrip ((pySplitOn '\t' out).headD ""), 1) else ("Error", 0)
    | .exn _ => ("Error", 0)

/-- `clean_directory`: remove all contents of a directory, keeping the
directory itself; a missing directory is a successful no-op; the reported
size is the pre-deletion measurement; any deletion exception yields a
failed outcome with size `"0B"`. -/
def clean_directory (env : Env) (fs : FS) (path : String) : (Bool × String × String) × FS :=
  let expanded := toPath (expanduser env.home path)
  if !(fs_exists fs expanded) then ((true, "Directory not found", "0B"), fs)
  else
    let size_before := (get_directory_size env fs path).1
    let r := removeLoop fs expanded (os_listdir fs expanded)
    match r.2 with
    | none => ((true, "Cleaned successfully", size_before), r.1)
    | some e => ((false, "Error: " ++ e, "0B"), r.1)

/-- Python `str.split()` with no argument: split on whitespace, dropping
empty tokens. -/
def pySplit (s : String) : List String :=
  ((splitBy Char.isWhitespace s.data).map String.mk).filter (fun t => t ≠ "")

/-- `execute_command`: run the tokenized command; exit code 0 and nonzero
exit codes are both successes, only a raised exception (missing executable,
timeout) is a failure. -/
def execute_command (env : Env) (command : String) : Bool × String :=
  match env.run (pySplit command) with
  | .completed rc _ =>
    if rc = 0 then (true, "Executed successfully") else (true, "No unavailable simulators found")
  | .exn e => (false, "Error: " ++ e)

/-- One entry of the cleanup registry (`CATEGORIES`). -/
structure Category where
  name : String
  path : String
  description : String
  typical_size : String
  safety : String
  type : String
  default : Bool
deriving Repr, DecidableEq

/-- One row of the result list built by `perform_cleanup`. -/
structure CleanupResult where
  name : String
  success : Bool
  message : String
  size : String
deriving Repr, DecidableEq

/-- `perform_cleanup`: iterate the selected categories in order, dispatching
on `type`: directories go through `clean_directory` (threading the
filesystem state), commands through `execute_command` with size `"N/A"`;
any other type appends nothing. -/
def perform_cleanup (env : Env) (fs : FS) : List Category → List CleanupResult × FS
  | [] => ([], fs)
  | c :: rest =>
    if c.type = "directory" then
      let r := clean_directory env fs c.path
      let tail := perform_cleanup env r.2 rest
      (⟨c.name, r.1.1, r.1.2.1, r.1.2.2⟩ :: tail.1, tail.2)
    else if c.type = "command" then
      let r := execute_command env c.path
      let tail := perform_cleanup env fs rest
      (⟨c.name, r.1, r.2, "N/A"⟩ :: tail.1, tail.2)
    else
      perform_cleanup env fs rest

/-- The static registry of cleanup targets (`CATEGORIES`). -/
def CATEGORIES : List Category :=
  [ { name := "Derived Data",
      path := "~/Library/Developer/Xcode/DerivedData",
      description := "Build artifacts and intermediate files. Safe to delete - Xcode will rebuild them.",
      typical_size := "5-50GB", safety := "safe", type := "directory", default := true },
    { name := "Unavailable Simulators",
      path := "xcrun simctl delete unavailable",
      description := "Removes old iOS Simulator instances that are no longer available.",
      typical_size := "Varies", safety := "safe", type := "command", default := true },
    { name := "Device Support Files",
      path := "~/Library/Developer/Xcode/iOS DeviceSupport",
      description := "Support files for old iOS versions from connected devices.",
      typical_size := "1-10GB", safety := "safe", type := "directory", default := true },
    { name := "Simulator Caches",
      path := "~/Library/Developer/CoreSimulator/Caches",
      description := "Cache files from iOS Simulators. Safe to delete - simulators will recreate them.",
      typical_size := "1-5GB", safety := "safe", type := "directory", default := true },
    { name := "Archives",
      path := "~/Library/Developer/Xcode/Archives",
      description := "Old app builds (.xcarchive files). Only delete if you don\x27t need old builds.",
      typical_size := "1-20GB", safety := "caution", type := "directory", default := false },
    { name := "Device Logs",
      path := "~/Library/Developer/Xcode/iOS Device Logs",
      description := "Debug logs from connected iOS devices. Safe to delete.",
      typical_size := "100MB-1GB", safety := "safe", type := "directory", default := true },
    { name := "Swift Package Manager Cache",
      path := "~/Library/Caches/org.swift.swiftpm",
      description := "Downloaded Swift packages. Safe to delete - they\x27ll be re-downloaded when needed.",
      typical_size := "1-5GB", safety := "safe", type := "directory", default := true },
    { name := "Xcode Previews",
      path := "~/Library/Developer/Xcode/Previews",
      description := "SwiftUI Preview cache files. Safe to delete - Xcode will regenerate them.",
      typical_size := "500MB-2GB", safety := "safe", type := "directory", default := true },
    { name := "System Caches",
      path := "~/Library/Caches/com.apple.dt.Xcode",
      description := "Various Xcode-related system caches. Advanced option.",
      typical_size := "1-3GB", safety := "advanced", type := "directory", default := false } ]

/-- Restriction of a filesystem state to the subtree rooted at `r`
(proof-layer view used to state locality of the deletion executor). -/
def restrictFS (fs : FS) (r : EPath) : FS := fs.filter (fun n => pfx r n.path)

/-- The expanded root path of a directory-kind category. -/
def catRoot (env : Env) (c : Category) : EPath := toPath (expanduser env.home c.path)

/-- Filesystem sanity: no two entries share a path. -/
abbrev pathsNodup (fs : FS) : Prop := (fs.map (fun n => n.path)).Nodup

/-- Filesystem sanity: a non-directory entry has no proper descendants. -/
abbrev filesFlat (fs : FS) : Prop :=
  ∀ n ∈ fs, n.isDir = false → ∀ m ∈ fs, pfx n.path m.path = true → m.path = n.path

/-! ### Concrete fixtures used by the witnesses -/

/-- A home directory used by the concrete test environments. -/
def homeDir : String := "/h"

/-- Expanded components of the test path `~/d` under `homeDir`. -/
def dRoot : EPath := ["", "h", "d"]

/-- Environment whose `du` succeeds and whose command runner succeeds. -/
def env1 : Env :=
  { home := homeDir, du := fun _ _ => .completed 0 "2.0G\t/h/d\n",
    run := fun _ => .completed 0 "" }

/-- Environment whose `du` raises (e.g. times out) and whose command runner
raises (missing executable). -/
def envExn : Env :=
  { home := homeDir, du := fun _ _ => .exn "timeout",
    run := fun _ => .exn "FileNotFoundError" }

/-- Environment whose `du` completes with a nonzero exit code. -/
def envDuFail : Env :=
  { home := homeDir, du := fun _ _ => .completed 1 "",
    run := fun _ => .completed 1 "" }

/-- A populated test directory `~/d`: the root, a subdirectory with a file
inside, and a top-level file, all removable. -/
def fsFull : FS :=
  [ { path := dRoot, isDir := true, removable := true, errMsg := "" },
    { path := dRoot ++ ["a"], isDir := true, removable := true, errMsg := "" },
    { path := dRoot ++ ["a", "f"], isDir := false, removable := true, errMsg := "" },
    { path := dRoot ++ ["b"], isDir := false, removable := true, errMsg := "" } ]

/-- A test directory `~/d` whose single child cannot be deleted. -/
def fsStuck : FS :=
  [ { path := dRoot, isDir := true, removable := true, errMsg := "" },
    { path := dRoot ++ ["x"], isDir := false, removable := false,
      errMsg := "Permission denied" } ]

/-- Expanded components of the second test path `~/e` under `homeDir`. -/
def eRoot : EPath := ["", "h", "e"]

/-- A failure scenario: `~/d` has a non-removable child, `~/e` is fine. -/
def fsFail : FS :=
  [ { path := dRoot, isDir := true, removable := true, errMsg := "" },
    { path := dRoot ++ ["x"], isDir := false, removable := false,
      errMsg := "Permission denied" },
    { path := eRoot, isDir := true, removable := true, errMsg := "" },
    { path := eRoot ++ ["y"], isDir := false, removable := true, errMsg := "" } ]

/-- The same scenario with every entry removable. -/
def fsOk : FS :=
  [ { path := dRoot, isDir := true, removable := true, errMsg := "" },
    { path := dRoot ++ ["x"], isDir := false, removable := true, errMsg := "" },
    { path := eRoot, isDir := true, removable := true, errMsg := "" },
    { path := eRoot ++ ["y"], isDir := false, removable := true, errMsg := "" } ]

/-- A registry-shaped directory category pointing at the test path. -/
def catDir : Category :=
  { name := "Test Dir", path := "~/d", description := "", typical_size := "",
    safety := "safe", type := "directory", default := true }

/-- A second directory category with a disjoint root. -/
def catDir2 : Category :=
  { name := "Test Dir 2", path := "~/e", description := "", typical_size := "",
    safety := "safe", type := "directory", default := true }

/-- The registry's command category (`Unavailable Simulators`). -/
def catSim : Category :=
  { name := "Unavailable Simulators", path := "xcrun simctl delete unavailable",
    description := "Removes old iOS Simulator instances that are no longer available.",
    typical_size := "Varies", safety := "safe", type := "command", default := true }

/-- A category whose `type` is neither `directory` nor `command`. -/
def catUnknown : Category :=
  { name := "Weird", path := "~/nowhere", description := "", typical_size := "",
    safety := "safe", type := "mystery", default := false }

/-! ### Path prefix lemmas -/

theorem pfx_iff (p q : EPath) : pfx p q = true ↔ ∃ s, p ++ s = q := by
  induction p generalizing q with
  | nil => simp [pfx]
  | cons a p ih =>
    cases q with
    | nil => simp [pfx]
    | cons b q =>
      simp only [pfx, Bool.and_eq_true, beq_iff_eq, ih, List.cons_append, List.cons.injEq]
      constructor
      · rintro ⟨rfl, s, rfl⟩; exact ⟨s, rfl, rfl⟩
      · rintro ⟨s, rfl, rfl⟩; exact ⟨rfl, s, rfl⟩

theorem pfx_refl (p : EPath) : pfx p p = true :=
  (pfx_iff p p).mpr ⟨[], by simp⟩

theorem pfx_append (p s : EPath) : pfx p (p ++ s) = true :=
  (pfx_iff p (p ++ s)).mpr ⟨s, rfl⟩

theorem pfx_trans {p q r : EPath} (h1 : pfx p q = true) (h2 : pfx q r = true) :
    pfx p r = true := by
  obtain ⟨s, rfl⟩ := (pfx_iff p q).mp h1
  obtain ⟨t, rfl⟩ := (pfx_iff (p ++ s) _).mp h2
  exact (pfx_iff _ _).mpr ⟨s ++ t, by simp⟩

theorem pfx_length {p q : EPath} (h : pfx p q = true) : p.length ≤ q.length := by
  obtain ⟨s, rfl⟩ := (pfx_iff p q).mp h
  simp

theorem pfx_snoc_inj {p : EPath} {a b : String}
    (h : pfx (p ++ [a]) (p ++ [b]) = true) : a = b := by
  obtain ⟨s, hs⟩ := (pfx_iff _ _).mp h
  simp at hs
  exact hs.1

theorem pfx_comparable {r s q : EPath} (hr : pfx r q = true) (hs : pfx s q = true) :
    pfx r s = true ∨ pfx s r = true := by
  have h1 : r <+: q := (pfx_iff r q).mp hr
  have h2 : s <+: q := (pfx_iff s q).mp hs
  rcases List.prefix_or_prefix_of_prefix h1 h2 with h | h
  · exact Or.inl ((pfx_iff r s).mpr h)
  · exact Or.inr ((pfx_iff s r).mpr h)

theorem childName_eq_some {p q : EPath} {a : String} :
    childName p q = some a ↔ q = p ++ [a] := by
  unfold childName
  constructor
  · intro h
    split at h
    · next hc =>
      obtain ⟨hl, hp⟩ := Bool.and_eq_true .. |>.mp hc
      obtain ⟨s, rfl⟩ := (pfx_iff p q).mp hp
      have hsl : s.length = 1 := by
        have h2 := beq_iff_eq.mp hl
        simp only [List.length_append] at h2
        omega
      obtain ⟨x, rfl⟩ : ∃ x, s = [x] := by
        cases s with
        | nil => simp at hsl
        | cons x t => cases t with
          | nil => exact ⟨x, rfl⟩
          | cons y u => simp at hsl
      rw [List.getLast?_concat] at h
      cases h
      rfl
    · exact absurd h (by simp)
  · rintro rfl
    have hc : ((p ++ [a]).length == p.length + 1 && pfx p (p ++ [a])) = true := by
      simp [pfx_append]
    rw [if_pos hc, List.getLast?_concat]

/-! ### Generic list helper lemmas -/

theorem any_filter_support {α : Type} {l : List α} {p q : α → Bool}
    (h : ∀ x, p x = true → q x = true) : (l.filter q).any p = l.any p := by
  induction l with
  | nil => rfl
  | cons a l ih =>
    by_cases hq : q a = true
    · simp [List.filter_cons, hq, ih]
    · have hp : p a = false := by
        cases hpa : p a
        · rfl
        · exact absurd (h a hpa) hq
      simp [List.filter_cons, hq, hp, ih]

theorem find?_filter_support {α : Type} {l : List α} {p q : α → Bool}
    (h : ∀ x, p x = true → q x = true) : (l.filter q).find? p = l.find? p := by
  induction l with
  | nil => rfl
  | cons a l ih =>
    by_cases hq : q a = true
    · by_cases hp : p a = true
      · simp [List.filter_cons, hq, List.find?_cons, hp]
      · simp [List.filter_cons, hq, List.find?_cons, hp, ih]
    · have hp : p a = false := by
        cases hpa : p a
        · rfl
        · exact absurd (h a hpa) hq
      simp [List.filter_cons, hq, List.find?_cons, hp, ih]

theorem filterMap_filter_support {α β : Type} {l : List α} {f : α → Option β} {q : α → Bool}
    (h : ∀ x, f x ≠ none → q x = true) : (l.filter q).filterMap f = l.filterMap f := by
  induction l with
  | nil => rfl
  | cons a l ih =>
    by_cases hq : q a = true
    · simp only [List.filter_cons, hq, if_pos, List.filterMap_cons]
      cases hf : f a
      · simpa [hf] using ih
      · simpa [hf] using ih
    · have hf : f a = none := by
        cases hfa : f a
        · rfl
        · exact absurd (h a (by simp [hfa])) hq
      simp [List.filter_cons, hq, List.filterMap_cons, hf, ih]

theorem filter_comm_ap {α : Type} (l : List α) (p q : α → Bool) :
    (l.filter p).filter q = (l.filter q).filter p := by
  simp only [List.filter_filter]
  exact List.filter_congr (fun x _ => Bool.and_comm ..)

theorem filter_and_absorb {α : Type} {l : List α} {p q : α → Bool}
    (h : ∀ x ∈ l, q x = true → p x = true) :
    l.filter (fun x => p x && q x) = l.filter q := by
  refine List.filter_congr (fun x hx => ?_)
  cases hqx : q x
  · simp
  · simp [h x hx hqx]

/-! ### Orchestrator unfolding lemmas -/

theorem perform_cleanup_cons_dir (env : Env) (fs : FS) (c : Category) (rest : List Category)
    (h : c.type = "directory") :
    perform_cleanup env fs (c :: rest) =
      (⟨c.name, (clean_directory env fs c.path).1.1, (clean_directory env fs c.path).1.2.1,
        (clean_directory env fs c.path).1.2.2⟩ ::
          (perform_cleanup env (clean_directory env fs c.path).2 rest).1,
        (perform_cleanup env (clean_directory env fs c.path).2 rest).2) := by
  simp [perform_cleanup, h]

theorem perform_cleanup_cons_cmd (env : Env) (fs : FS) (c : Category) (rest : List Category)
    (h : c.type = "command") :
    perform_cleanup env fs (c :: rest) =
      (⟨c.name, (execute_command env c.path).1, (execute_command env c.path).2, "N/A"⟩ ::
        (perform_cleanup env fs rest).1, (perform_cleanup env fs rest).2) := by
  simp [perform_cleanup, h]

theorem perform_cleanup_names (env : Env) (cats : List Category) :
    ∀ fs : FS, (∀ c ∈ cats, c.type = "directory" ∨ c.type = "command") →
      ((perform_cleanup env fs cats).1).map (fun r => r.name) =
        cats.map (fun c => c.name) := by
  induction cats with
  | nil => intro fs _; rfl
  | cons c rest ih =>
    intro fs hk
    have htail : ∀ c' ∈ rest, c'.type = "directory" ∨ c'.type = "command" :=
      fun c' hc' => hk c' (by simp [hc'])
    rcases hk c (by simp) with h | h
    · rw [perform_cleanup_cons_dir env fs c rest h]
      simp only [List.map_cons]
      exact congrArg _ (ih _ htail)
    · rw [perform_cleanup_cons_cmd env fs c rest h]
      simp only [List.map_cons]
      exact congrArg _ (ih _ htail)

theorem perform_cleanup_length (env : Env) (fs : FS) (cats : List Category)
    (hk : ∀ c ∈ cats, c.type = "directory" ∨ c.type = "command") :
    (perform_cleanup env fs cats).1.length = cats.length := by
  have h2 := congrArg List.length (perform_cleanup_names env cats fs hk)
  simpa using h2

/-! ### Claims about the measurement service and the two executor strategies -/

/-- C4: for every path whose home-expanded form does not exist,
`clean_directory` returns success with the "not found" message and size
`"0B"`, leaves the filesystem unchanged, and running it a second time
yields the same outcome. -/
theorem clean_directory_missing_idempotent (env : Env) (fs : FS) (path : String)
    (h : fs_exists fs (toPath (expanduser env.home path)) = false) :
    clean_directory env fs path = ((true, "Directory not found", "0B"), fs) ∧
    clean_directory env (clean_directory env fs path).2 path =
      clean_directory env fs path := by
  have h1 : clean_directory env fs path = ((true, "Directory not found", "0B"), fs) := by
    simp [clean_directory, h]
  refine ⟨h1, ?_⟩
  rw [h1]
  exact h1

/-- C4 witness: the absent-directory outcome on a concrete empty filesystem. -/
theorem clean_directory_missing_idempotent_witness :
    fs_exists [] (toPath (expanduser env1.home "~/d")) = false ∧
    (clean_directory env1 [] "~/d" = ((true, "Directory not found", "0B"), []) ∧
      clean_directory env1 (clean_directory env1 [] "~/d").2 "~/d" =
        clean_directory env1 [] "~/d") :=
  ⟨by decide, clean_directory_missing_idempotent env1 [] "~/d" (by decide)⟩

/-- C6: when the directory exists and `clean_directory` succeeds, the
reported size string is the measurement taken on the filesystem state from
before any child was removed. -/
theorem clean_directory_size_is_pre_snapshot (env : Env) (fs : FS) (path : String)
    (hex : fs_exists fs (toPath (expanduser env.home path)) = true)
    (hsucc : (clean_directory env fs path).1.1 = true) :
    (clean_directory env fs path).1.2.2 = (get_directory_size env fs path).1 := by
  rcases hr : (removeLoop fs (toPath (expanduser env.home path))
      (os_listdir fs (toPath (expanduser env.home path)))).2 with _ | e
  · simp [clean_directory, hex, hr]
  · exfalso
    simp [clean_directory, hex, hr] at hsucc

/-- C6 witness: a successful concrete cleanup reports the pre-deletion `du`
measurement. -/
theorem clean_directory_size_is_pre_snapshot_witness :
    fs_exists fsFull (toPath (expanduser env1.home "~/d")) = true ∧
    (clean_directory env1 fsFull "~/d").1.1 = true ∧
    (clean_directory env1 fsFull "~/d").1.2.2 = (get_directory_size env1 fsFull "~/d").1 :=
  ⟨by decide, by decide,
    clean_directory_size_is_pre_snapshot env1 fsFull "~/d" (by decide) (by decide)⟩

/-- C7: when the directory exists and deleting one of its children raises,
`clean_directory` returns a failed outcome whose message carries the raised
error text and whose size is `"0B"`, rather than propagating the
exception. -/
theorem clean_directory_failure_outcome (env : Env) (fs : FS) (path : String) (e : String)
    (hex : fs_exists fs (toPath (expanduser env.home path)) = true)
    (hloop : (removeLoop fs (toPath (expanduser env.home path))
      (os_listdir fs (toPath (expanduser env.home path)))).2 = some e) :
    (clean_directory env fs path).1 = (false, "Error: " ++ e, "0B") := by
  simp [clean_directory, hex, hloop]

/-- C7 witness: a concrete directory with a non-removable child produces the
failed outcome carrying the underlying error text. -/
theorem clean_directory_failure_outcome_witness :
    fs_exists fsStuck (toPath (expanduser env1.home "~/d")) = true ∧
    (removeLoop fsStuck (toPath (expanduser env1.home "~/d"))
      (os_listdir fsStuck (toPath (expanduser env1.home "~/d")))).2 =
        some "Permission denied" ∧
    (clean_directory env1 fsStuck "~/d").1 =
      (false, "Error: " ++ "Permission denied", "0B") :=
  ⟨by decide, by decide,
    clean_directory_failure_outcome env1 fsStuck "~/d" "Permission denied"
      (by decide) (by decide)⟩

/-- C8: `get_directory_size` returns the distinguishable `("Not found", 0)`
marker when the expanded path does not exist, and returns the `("Error", 0)`
marker (instead of propagating) when the bounded `du` invocation raises or
exits nonzero. -/
theorem get_directory_size_markers (env : Env) (fs : FS) (path : String) :
    (fs_exists fs (toPath (expanduser env.home path)) = false →
      get_directory_size env fs path = ("Not found", 0)) ∧
    (fs_exists fs (toPath (expanduser env.home path)) = true →
      ∀ msg, env.du fs (expanduser env.home path) = .exn msg →
        get_directory_size env fs path = ("Error", 0)) ∧
    (fs_exists fs (toPath (expanduser env.home path)) = true →
      ∀ rc out, rc ≠ 0 → env.du fs (expanduser env.home path) = .completed rc out →
        get_directory_size env fs path = ("Error", 0)) := by
  refine ⟨fun h => by simp [get_directory_size, h], fun h msg hm => ?_, fun h rc out hrc hm => ?_⟩
  · simp [get_directory_size, h, hm]
  · simp [get_directory_size, h, hm, hrc]

/-- C8 witness: the three markers on concrete inputs (absent path, raising
`du`, nonzero-exit `du`). -/
theorem get_directory_size_markers_witness :
    get_directory_size envExn [] "~/d" = ("Not found", 0) ∧
    get_directory_size envExn fsFull "~/d" = ("Error", 0) ∧
    get_directory_size envDuFail fsFull "~/d" = ("Error", 0) :=
  ⟨(get_directory_size_markers envExn [] "~/d").1 (by decide),
    (get_directory_size_markers envExn fsFull "~/d").2.1 (by decide) "timeout" (by decide),
    (get_directory_size_markers envDuFail fsFull "~/d").2.2 (by decide) 1 "" (by decide)
      (by decide)⟩

/-- C10: when the path exists but the size computation raises or exits
nonzero, the returned flag is `0` — the very value returned for an absent
path — so the flag alone cannot distinguish the two situations. -/
theorem get_directory_size_flag_ambiguity (env : Env) (fs : FS) (path : String)
    (hex : fs_exists fs (toPath (expanduser env.home path)) = true)
    (herr : (∃ msg, env.du fs (expanduser env.home path) = .exn msg) ∨
      (∃ rc out, rc ≠ 0 ∧ env.du fs (expanduser env.home path) = .completed rc out)) :
    (get_directory_size env fs path).2 = 0 ∧
    ∀ fs2 : FS, fs_exists fs2 (toPath (expanduser env.home path)) = false →
      (get_directory_size env fs2 path).2 = 0 := by
  constructor
  · rcases herr with ⟨msg, hm⟩ | ⟨rc, out, hrc, hm⟩
    · simp [get_directory_size, hex, hm]
    · simp [get_directory_size, hex, hm, hrc]
  · intro fs2 h2
    simp [get_directory_size, h2]

/-- C10 witness: an existing-but-unmeasurable directory and an absent
directory both yield flag `0`. -/
theorem get_directory_size_flag_ambiguity_witness :
    fs_exists fsFull (toPath (expanduser envExn.home "~/d")) = true ∧
    envExn.du fsFull (expanduser envExn.home "~/d") = .exn "timeout" ∧
    ((get_directory_size envExn fsFull "~/d").2 = 0 ∧
      ∀ fs2 : FS, fs_exists fs2 (toPath (expanduser envExn.home "~/d")) = false →
        (get_directory_size envExn fs2 "~/d").2 = 0) :=
  ⟨by decide, by decide,
    get_directory_size_flag_ambiguity envExn fsFull "~/d" (by decide)
      (Or.inl ⟨"timeout", by decide⟩)⟩

/-- C3: a command-kind target always yields a `"N/A"`-sized outcome built
from `execute_command`; any completed run of the external command (zero or
nonzero exit code) is a success, and only a raised invocation failure
yields `success = false`, with the outcome message carrying the error
text. -/
theorem execute_command_invocation_failure_only (env : Env) (fs : FS) (c : Category)
    (h : c.type = "command") :
    (perform_cleanup env fs [c]).1 =
      [⟨c.name, (execute_command env c.path).1, (execute_command env c.path).2, "N/A"⟩] ∧
    (∀ rc out, env.run (pySplit c.path) = .completed rc out →
      (execute_command env c.path).1 = true) ∧
    (∀ msg, env.run (pySplit c.path) = .exn msg →
      execute_command env c.path = (false, "Error: " ++ msg)) := by
  refine ⟨?_, fun rc out hm => ?_, fun msg hm => ?_⟩
  · simp [perform_cleanup, h]
  · by_cases hrc : rc = 0
    · simp [execute_command, hm, hrc]
    · simp [execute_command, hm, hrc]
  · simp [execute_command, hm]

/-- C3 witness: a zero-exit run, a nonzero-exit run and a raising run of the
registry's command target. -/
theorem execute_command_invocation_failure_only_witness :
    catSim.type = "command" ∧
    env1.run (pySplit catSim.path) = .completed 0 "" ∧
    envDuFail.run (pySplit catSim.path) = .completed 1 "" ∧
    envExn.run (pySplit catSim.path) = .exn "FileNotFoundError" ∧
    (execute_command env1 catSim.path).1 = true ∧
    (execute_command envDuFail catSim.path).1 = true ∧
    execute_command envExn catSim.path = (false, "Error: " ++ "FileNotFoundError") ∧
    (perform_cleanup envExn [] [catSim]).1 =
      [⟨catSim.name, (execute_command envExn catSim.path).1,
        (execute_command envExn catSim.path).2, "N/A"⟩] :=
  ⟨by decide, by decide, by decide, by decide,
    (execute_command_invocation_failure_only env1 [] catSim (by decide)).2.1 0 "" (by decide),
    (execute_command_invocation_failure_only envDuFail [] catSim (by decide)).2.1 1 "" (by decide),
    (execute_command_invocation_failure_only envExn [] catSim (by decide)).2.2
      "FileNotFoundError" (by decide),
    (execute_command_invocation_failure_only envExn [] catSim (by decide)).1⟩

/-- C9: a target whose kind is neither `directory` nor `command` produces no
outcome at all: on a concrete two-element selection whose first target has
an unknown kind, `perform_cleanup` silently skips it, still processes the
second target, and returns a list shorter than its input. -/
theorem perform_cleanup_skips_unknown_kind :
    (perform_cleanup env1 [] [catUnknown, catSim]).1 =
      [⟨"Unavailable Simulators", true, "Executed successfully", "N/A"⟩] ∧
    (perform_cleanup env1 [] [catUnknown, catSim]).1.length <
      [catUnknown, catSim].length := by
  constructor
  · decide
  · decide

/-- C1: the orchestrator emits exactly one outcome per selected target and
in input order: the result list has the input's length and its i-th entry
carries the i-th target's name. -/
theorem perform_cleanup_order_preserved (env : Env) (fs : FS) (cats : List Category)
    (hk : ∀ c ∈ cats, c.type = "directory" ∨ c.type = "command") :
    (perform_cleanup env fs cats).1.length = cats.length ∧
    ((perform_cleanup env fs cats).1).map (fun r => r.name) =
      cats.map (fun c => c.name) :=
  ⟨perform_cleanup_length env fs cats hk, perform_cleanup_names env cats fs hk⟩

/-- C1 witness: a concrete two-target selection (one directory, one
command) yields two outcomes in order. -/
theorem perform_cleanup_order_preserved_witness :
    (∀ c ∈ [catDir, catSim], c.type = "directory" ∨ c.type = "command") ∧
    ((perform_cleanup env1 fsFull [catDir, catSim]).1.length = [catDir, catSim].length ∧
      ((perform_cleanup env1 fsFull [catDir, catSim]).1).map (fun r => r.name) =
        [catDir, catSim].map (fun c => c.name)) :=
  ⟨by decide, perform_cleanup_order_preserved env1 fsFull [catDir, catSim] (by decide)⟩

/-! ### Directory-clearing: the fully-removable case (C5) -/

theorem mem_listdir_iff {fs : FS} {p : EPath} {a : String} :
    a ∈ os_listdir fs p ↔ ∃ n, n ∈ fs ∧ n.path = p ++ [a] := by
  simp [os_listdir, List.mem_filterMap, childName_eq_some]

theorem listdir_nodup {fs : FS} (p : EPath) (h : pathsNodup fs) :
    (os_listdir fs p).Nodup := by
  induction fs with
  | nil => exact List.nodup_nil
  | cons n fs ih =>
    simp only [pathsNodup, List.map_cons, List.nodup_cons] at h
    rcases hc : childName p n.path with _ | a
    · simpa [os_listdir, List.filterMap_cons, hc] using ih h.2
    · rw [os_listdir, List.filterMap_cons, hc]
      refine List.nodup_cons.mpr ⟨?_, ih h.2⟩
      intro ha
      obtain ⟨m, hm, hmp⟩ := mem_listdir_iff.mp ha
      have hnp : n.path = p ++ [a] := childName_eq_some.mp hc
      have : n.path ∈ fs.map (fun x => x.path) := by
        rw [hnp, ← hmp]
        exact List.mem_map_of_mem _ hm
      exact h.1 this

theorem removeLoop_all_removable :
    ∀ (items : List String) (fs : FS) (base : EPath),
      pathsNodup fs → filesFlat fs →
      (∀ n ∈ fs, pfx base n.path = true → n.path ≠ base → n.removable = true) →
      items.Nodup →
      (∀ i ∈ items, ∃ n ∈ fs, n.path = base ++ [i]) →
      (removeLoop fs base items).2 = none ∧
      ∀ n : FSNode, n ∈ (removeLoop fs base items).1 ↔
        (n ∈ fs ∧ ∀ i ∈ items, pfx (base ++ [i]) n.path = false) := by
  intro items
  induction items with
  | nil =>
    intro fs base _ _ _ _ _
    exact ⟨rfl, by simp [removeLoop]⟩
  | cons i rest ih =>
    intro fs base hnd hff hrem hinod hex
    obtain ⟨n0, hn0f, hn0p⟩ := hex i (by simp)
    have hsome : ∃ m, fs.find? (fun n => n.path == (base ++ [i])) = some m := by
      have hs : (fs.find? (fun n => n.path == (base ++ [i]))).isSome := by
        rw [List.find?_isSome]
        exact ⟨n0, hn0f, by simp [hn0p]⟩
      exact Option.isSome_iff_exists.mp hs
    obtain ⟨m, hm⟩ := hsome
    have hmmem : m ∈ fs := List.mem_of_find?_eq_some hm
    have hmpath : m.path = base ++ [i] := by simpa using List.find?_some hm
    have hmne : m.path ≠ base := by
      rw [hmpath]
      intro heq
      have hlen := congrArg List.length heq
      simp at hlen
    have hmrem : m.removable = true :=
      hrem m hmmem (by rw [hmpath]; exact pfx_append base [i]) hmne
    have hstep : (if fs_isdir fs (base ++ [i]) then shutil_rmtree fs (base ++ [i])
        else os_remove fs (base ++ [i])) =
        .ok (fs.filter (fun n => !(pfx (base ++ [i]) n.path))) := by
      by_cases hd : m.isDir = true
      · rw [if_pos (by simp [fs_isdir, hm, hd])]
        rw [shutil_rmtree]
        have hnone : fs.find? (fun n => pfx (base ++ [i]) n.path && !n.removable) = none := by
          rw [List.find?_eq_none]
          intro x hx
          simp only [Bool.and_eq_true, Bool.not_eq_true', not_and]
          intro hpx
          have hxb : pfx base x.path = true := pfx_trans (pfx_append base [i]) hpx
          have hxne : x.path ≠ base := by
            intro heq
            have hl := pfx_length hpx
            rw [heq] at hl
            simp at hl
          rw [hrem x hx hxb hxne]
          simp
        rw [hnone]
      · rw [if_neg (by simp [fs_isdir, hm, hd])]
        have hos : os_remove fs (base ++ [i]) =
            Except.ok (fs.filter (fun x => !(x.path == base ++ [i]))) := by
          rw [os_remove, hm]
          exact if_pos hmrem
        rw [hos]
        congr 1
        refine List.filter_congr (fun x hx => ?_)
        by_cases hxp : x.path = base ++ [i]
        · simp [hxp, pfx_refl]
        · have hpf : pfx (base ++ [i]) x.path = false := by
            cases hp : pfx (base ++ [i]) x.path
            · rfl
            · exfalso
              have hflat := hff m hmmem (by simpa using hd) x hx
                (by rw [hmpath]; exact hp)
              rw [hmpath] at hflat
              exact hxp hflat
          simp [hpf, hxp]
    have hloop : removeLoop fs base (i :: rest) =
        removeLoop (fs.filter (fun n => !(pfx (base ++ [i]) n.path))) base rest := by
      rw [removeLoop, hstep]
    have hnd1 : pathsNodup (fs.filter (fun n => !(pfx (base ++ [i]) n.path))) :=
      List.Nodup.sublist (List.Sublist.map _ (List.filter_sublist fs)) hnd
    have hff1 : filesFlat (fs.filter (fun n => !(pfx (base ++ [i]) n.path))) :=
      fun n hn hd m hmm hp =>
        hff n (List.mem_filter.mp hn).1 hd m (List.mem_filter.mp hmm).1 hp
    have hrem1 : ∀ n ∈ fs.filter (fun n => !(pfx (base ++ [i]) n.path)),
        pfx base n.path = true → n.path ≠ base → n.removable = true :=
      fun n hn => hrem n (List.mem_filter.mp hn).1
    have hex1 : ∀ i' ∈ rest, ∃ n ∈ fs.filter (fun n => !(pfx (base ++ [i]) n.path)),
        n.path = base ++ [i'] := by
      intro i' hi'
      obtain ⟨n', hn', hp'⟩ := hex i' (by simp [hi'])
      have hii' : i ≠ i' := by
        intro hii
        subst hii
        exact (List.nodup_cons.mp hinod).1 hi'
      have hpf : pfx (base ++ [i]) n'.path = false := by
        cases hp : pfx (base ++ [i]) n'.path
        · rfl
        · rw [hp'] at hp
          exact absurd (pfx_snoc_inj hp) hii'
      exact ⟨n', List.mem_filter.mpr ⟨hn', by simp [hpf]⟩, hp'⟩
    obtain ⟨h2, hchar⟩ := ih (fs.filter (fun n => !(pfx (base ++ [i]) n.path))) base
      hnd1 hff1 hrem1 (List.nodup_cons.mp hinod).2 hex1
    rw [hloop]
    refine ⟨h2, fun n => ?_⟩
    rw [hchar n]
    simp only [List.mem_filter, Bool.not_eq_true']
    constructor
    · rintro ⟨⟨hnf, hnpfx⟩, hrest⟩
      refine ⟨hnf, fun i' hi' => ?_⟩
      rcases List.mem_cons.mp hi' with hii | hii
      · rw [hii]
        exact hnpfx
      · exact hrest i' hii
    · rintro ⟨hnf, hall⟩
      exact ⟨⟨hnf, hall i (by simp)⟩, fun i' hi' => hall i' (by simp [hi'])⟩

/-- C5: for an existing directory all of whose (recursive) contents are
removable, `clean_directory` succeeds, the directory entry itself still
exists afterwards with zero immediate children, and no entry outside the
directory's subtree is touched. -/
theorem clean_directory_clears_children_frame (env : Env) (fs : FS) (path : String)
    (hnd : pathsNodup fs) (hff : filesFlat fs)
    (hex : fs_exists fs (toPath (expanduser env.home path)) = true)
    (hrem : ∀ n ∈ fs, pfx (toPath (expanduser env.home path)) n.path = true →
      n.path ≠ toPath (expanduser env.home path) → n.removable = true) :
    (clean_directory env fs path).1.1 = true ∧
    fs_exists (clean_directory env fs path).2 (toPath (expanduser env.home path)) = true ∧
    os_listdir (clean_directory env fs path).2 (toPath (expanduser env.home path)) = [] ∧
    ∀ n : FSNode, pfx (toPath (expanduser env.home path)) n.path = false →
      (n ∈ (clean_directory env fs path).2 ↔ n ∈ fs) := by
  obtain ⟨hnone, hchar⟩ := removeLoop_all_removable
    (os_listdir fs (toPath (expanduser env.home path))) fs
    (toPath (expanduser env.home path)) hnd hff hrem
    (listdir_nodup _ hnd)
    (fun i hi => by
      obtain ⟨n, hn, hp⟩ := mem_listdir_iff.mp hi
      exact ⟨n, hn, hp⟩)
  have hcd : clean_directory env fs path =
      ((true, "Cleaned successfully", (get_directory_size env fs path).1),
        (removeLoop fs (toPath (expanduser env.home path))
          (os_listdir fs (toPath (expanduser env.home path)))).1) := by
    simp [clean_directory, hex, hnone]
  rw [hcd]
  refine ⟨rfl, ?_, ?_, ?_⟩
  · -- the root entry survives
    have hroot : ∃ n0, n0 ∈ fs ∧ n0.path = toPath (expanduser env.home path) := by
      rw [fs_exists, List.any_eq_true] at hex
      obtain ⟨n0, hn0, hp0⟩ := hex
      exact ⟨n0, hn0, beq_iff_eq.mp hp0⟩
    obtain ⟨n0, hn0, hp0⟩ := hroot
    have hn0mem : n0 ∈ (removeLoop fs (toPath (expanduser env.home path))
        (os_listdir fs (toPath (expanduser env.home path)))).1 := by
      rw [hchar n0]
      refine ⟨hn0, fun i _ => ?_⟩
      cases hp : pfx (toPath (expanduser env.home path) ++ [i]) n0.path
      · rfl
      · exfalso
        have hl := pfx_length hp
        rw [hp0] at hl
        simp at hl
    rw [fs_exists, List.any_eq_true]
    exact ⟨n0, hn0mem, by simp [hp0]⟩
  · -- no immediate children remain
    rw [os_listdir, List.filterMap_eq_nil_iff]
    intro n hn
    rcases hc : childName (toPath (expanduser env.home path)) n.path with _ | a
    · rfl
    · exfalso
      have hnp : n.path = toPath (expanduser env.home path) ++ [a] :=
        childName_eq_some.mp hc
      have hnfs : n ∈ fs := ((hchar n).mp hn).1
      have ha : a ∈ os_listdir fs (toPath (expanduser env.home path)) :=
        mem_listdir_iff.mpr ⟨n, hnfs, hnp⟩
      have := ((hchar n).mp hn).2 a ha
      rw [hnp] at this
      rw [pfx_refl] at this
      exact Bool.true_eq_false.mp this
  · -- frame: entries outside the subtree are untouched
    intro n hout
    rw [hchar n]
    constructor
    · exact fun h => h.1
    · intro hnf
      refine ⟨hnf, fun i _ => ?_⟩
      cases hp : pfx (toPath (expanduser env.home path) ++ [i]) n.path
      · rfl
      · exfalso
        have := pfx_trans (pfx_append (toPath (expanduser env.home path)) [i]) hp
        rw [hout] at this
        simp at this

/-- C5 witness: the spec's scenario — a directory holding a subfolder (with
a file inside) and a top-level file — is fully cleared while the root
survives and outside entries are untouched. -/
theorem clean_directory_clears_children_frame_witness :
    pathsNodup fsFull ∧ filesFlat fsFull ∧
    fs_exists fsFull (toPath (expanduser env1.home "~/d")) = true ∧
    (∀ n ∈ fsFull, pfx (toPath (expanduser env1.home "~/d")) n.path = true →
      n.path ≠ toPath (expanduser env1.home "~/d") → n.removable = true) ∧
    ((clean_directory env1 fsFull "~/d").1.1 = true ∧
      fs_exists (clean_directory env1 fsFull "~/d").2
        (toPath (expanduser env1.home "~/d")) = true ∧
      os_listdir (clean_directory env1 fsFull "~/d").2
        (toPath (expanduser env1.home "~/d")) = [] ∧
      ∀ n : FSNode, pfx (toPath (expanduser env1.home "~/d")) n.path = false →
        (n ∈ (clean_directory env1 fsFull "~/d").2 ↔ n ∈ fsFull)) :=
  ⟨by decide, by decide, by decide, by decide,
    clean_directory_clears_children_frame env1 fsFull "~/d"
      (by decide) (by decide) (by decide) (by decide)⟩

/-! ### Locality of the directory strategy (toward C2) -/

theorem filter_filter_support {α : Type} {l : List α} {p q : α → Bool}
    (h : ∀ x, p x = true → q x = true) : (l.filter q).filter p = l.filter p := by
  induction l with
  | nil => rfl
  | cons a l ih =>
    by_cases hq : q a = true
    · simp [List.filter_cons, hq, ih]
    · have hp : p a = false := by
        cases hpa : p a
        · rfl
        · exact absurd (h a hpa) hq
      simp [List.filter_cons, hq, hp, ih]

theorem restrictFS_filter (fs : FS) (r : EPath) (K : FSNode → Bool) :
    restrictFS (fs.filter K) r = (restrictFS fs r).filter K :=
  filter_comm_ap fs K (fun n => pfx r n.path)

theorem fs_exists_eq_of_restrict {fs1 fs2 : FS} {r : EPath}
    (h : restrictFS fs1 r = restrictFS fs2 r) (q : EPath) (hq : pfx r q = true) :
    fs_exists fs1 q = fs_exists fs2 q := by
  have hs : ∀ x : FSNode, (x.path == q) = true → pfx r x.path = true := by
    intro x hx
    rw [beq_iff_eq.mp hx]
    exact hq
  have h1 := any_filter_support (l := fs1) (q := fun n => pfx r n.path) hs
  have h2 := any_filter_support (l := fs2) (q := fun n => pfx r n.path) hs
  rw [fs_exists, fs_exists, ← h1, ← h2]
  show (restrictFS fs1 r).any _ = (restrictFS fs2 r).any _
  rw [h]

theorem find?_eq_of_restrict {fs1 fs2 : FS} {r : EPath}
    (h : restrictFS fs1 r = restrictFS fs2 r) {p : FSNode → Bool}
    (hs : ∀ x, p x = true → pfx r x.path = true) :
    fs1.find? p = fs2.find? p := by
  have h1 := find?_filter_support (l := fs1) (q := fun n => pfx r n.path) hs
  have h2 := find?_filter_support (l := fs2) (q := fun n => pfx r n.path) hs
  rw [← h1, ← h2]
  show (restrictFS fs1 r).find? p = (restrictFS fs2 r).find? p
  rw [h]

theorem listdir_eq_of_restrict {fs1 fs2 : FS} {r : EPath}
    (h : restrictFS fs1 r = restrictFS fs2 r) :
    os_listdir fs1 r = os_listdir fs2 r := by
  have hs : ∀ x : FSNode, childName r x.path ≠ none → pfx r x.path = true := by
    intro x hx
    obtain ⟨a, ha⟩ := Option.ne_none_iff_exists'.mp hx
    rw [childName_eq_some.mp ha]
    exact pfx_append r [a]
  have h1 := filterMap_filter_support (l := fs1) (q := fun n => pfx r n.path) hs
  have h2 := filterMap_filter_support (l := fs2) (q := fun n => pfx r n.path) hs
  rw [os_listdir, os_listdir, ← h1, ← h2]
  show (restrictFS fs1 r).filterMap _ = (restrictFS fs2 r).filterMap _
  rw [h]

theorem removeLoop_eq_of_restrict :
    ∀ (items : List String) (fs1 fs2 : FS) (r : EPath),
      restrictFS fs1 r = restrictFS fs2 r →
      (removeLoop fs1 r items).2 = (removeLoop fs2 r items).2 ∧
      restrictFS (removeLoop fs1 r items).1 r = restrictFS (removeLoop fs2 r items).1 r := by
  intro items
  induction items with
  | nil =>
    intro fs1 fs2 r h
    exact ⟨rfl, h⟩
  | cons i rest ih =>
    intro fs1 fs2 r h
    have hfind1 : fs1.find? (fun n => n.path == (r ++ [i])) =
        fs2.find? (fun n => n.path == (r ++ [i])) :=
      find?_eq_of_restrict h (fun x hx => by rw [beq_iff_eq.mp hx]; exact pfx_append r [i])
    have hisdir : fs_isdir fs1 (r ++ [i]) = fs_isdir fs2 (r ++ [i]) := by
      rw [fs_isdir, fs_isdir, hfind1]
    by_cases hdir : fs_isdir fs1 (r ++ [i]) = true
    · have hdir2 : fs_isdir fs2 (r ++ [i]) = true := hisdir ▸ hdir
      have hfindrm : fs1.find? (fun n => pfx (r ++ [i]) n.path && !n.removable) =
          fs2.find? (fun n => pfx (r ++ [i]) n.path && !n.removable) :=
        find?_eq_of_restrict h
          (fun x hx => pfx_trans (pfx_append r [i]) ((Bool.and_eq_true .. |>.mp hx).1))
      rcases hf : fs1.find? (fun n => pfx (r ++ [i]) n.path && !n.removable) with _ | m
      · have hstep1 : removeLoop fs1 r (i :: rest) =
            removeLoop (fs1.filter (fun n => !(pfx (r ++ [i]) n.path))) r rest := by
          rw [removeLoop, if_pos hdir, shutil_rmtree, hf]
        have hstep2 : removeLoop fs2 r (i :: rest) =
            removeLoop (fs2.filter (fun n => !(pfx (r ++ [i]) n.path))) r rest := by
          rw [removeLoop, if_pos hdir2, shutil_rmtree, ← hfindrm, hf]
        rw [hstep1, hstep2]
        apply ih
        rw [restrictFS_filter, restrictFS_filter, h]
      · have hstep1 : removeLoop fs1 r (i :: rest) = (fs1, some m.errMsg) := by
          rw [removeLoop, if_pos hdir, shutil_rmtree, hf]
        have hstep2 : removeLoop fs2 r (i :: rest) = (fs2, some m.errMsg) := by
          rw [removeLoop, if_pos hdir2, shutil_rmtree, ← hfindrm, hf]
        rw [hstep1, hstep2]
        exact ⟨rfl, h⟩
    · have hdir2 : ¬ fs_isdir fs2 (r ++ [i]) = true := hisdir ▸ hdir
      rcases hf : fs1.find? (fun n => n.path == (r ++ [i])) with _ | m
      · have hstep1 : removeLoop fs1 r (i :: rest) =
            (fs1, some "No such file or directory") := by
          rw [removeLoop, if_neg hdir, os_remove, hf]
        have hstep2 : removeLoop fs2 r (i :: rest) =
            (fs2, some "No such file or directory") := by
          rw [removeLoop, if_neg hdir2, os_remove, ← hfind1, hf]
        rw [hstep1, hstep2]
        exact ⟨rfl, h⟩
      · by_cases hrm : m.removable = true
        · have hstep1 : removeLoop fs1 r (i :: rest) =
              removeLoop (fs1.filter (fun x => !(x.path == (r ++ [i])))) r rest := by
            have hos : os_remove fs1 (r ++ [i]) =
                Except.ok (fs1.filter (fun x => !(x.path == (r ++ [i])))) := by
              rw [os_remove, hf]
              exact if_pos hrm
            rw [removeLoop, if_neg hdir, hos]
          have hstep2 : removeLoop fs2 r (i :: rest) =
              removeLoop (fs2.filter (fun x => !(x.path == (r ++ [i])))) r rest := by
            have hos : os_remove fs2 (r ++ [i]) =
                Except.ok (fs2.filter (fun x => !(x.path == (r ++ [i])))) := by
              rw [os_remove, ← hfind1, hf]
              exact if_pos hrm
            rw [removeLoop, if_neg hdir2, hos]
          rw [hstep1, hstep2]
          apply ih
          rw [restrictFS_filter, restrictFS_filter, h]
        · have hstep1 : removeLoop fs1 r (i :: rest) = (fs1, some m.errMsg) := by
            have hos : os_remove fs1 (r ++ [i]) = Except.error m.errMsg := by
              rw [os_remove, hf]
              exact if_neg hrm
            rw [removeLoop, if_neg hdir, hos]
          have hstep2 : removeLoop fs2 r (i :: rest) = (fs2, some m.errMsg) := by
            have hos : os_remove fs2 (r ++ [i]) = Except.error m.errMsg := by
              rw [os_remove, ← hfind1, hf]
              exact if_neg hrm
            rw [removeLoop, if_neg hdir2, hos]
          rw [hstep1, hstep2]
          exact ⟨rfl, h⟩

theorem clean_directory_snd (env : Env) (fs : FS) (path : String) :
    (clean_directory env fs path).2 =
      if fs_exists fs (toPath (expanduser env.home path)) = true then
        (removeLoop fs (toPath (expanduser env.home path))
          (os_listdir fs (toPath (expanduser env.home path)))).1
      else fs := by
  by_cases he : fs_exists fs (toPath (expanduser env.home path)) = true
  · rcases hrl : (removeLoop fs (toPath (expanduser env.home path))
        (os_listdir fs (toPath (expanduser env.home path)))).2 with _ | e
    · simp [clean_directory, he, hrl]
    · simp [clean_directory, he, hrl]
  · have he' : fs_exists fs (toPath (expanduser env.home path)) = false := by
      cases hb : fs_exists fs (toPath (expanduser env.home path))
      · rfl
      · exact absurd hb he
    simp [clean_directory, he']

theorem clean_directory_status (env : Env) (fs : FS) (path : String) :
    (clean_directory env fs path).1.1 =
      if fs_exists fs (toPath (expanduser env.home path)) = true then
        ((removeLoop fs (toPath (expanduser env.home path))
          (os_listdir fs (toPath (expanduser env.home path)))).2).isNone
      else true := by
  by_cases he : fs_exists fs (toPath (expanduser env.home path)) = true
  · rcases hrl : (removeLoop fs (toPath (expanduser env.home path))
        (os_listdir fs (toPath (expanduser env.home path)))).2 with _ | e
    · simp [clean_directory, he, hrl]
    · simp [clean_directory, he, hrl]
  · have he' : fs_exists fs (toPath (expanduser env.home path)) = false := by
      cases hb : fs_exists fs (toPath (expanduser env.home path))
      · rfl
      · exact absurd hb he
    simp [clean_directory, he']

theorem clean_directory_eq_of_restrict (env : Env) (fs1 fs2 : FS) (path : String)
    (h : restrictFS fs1 (toPath (expanduser env.home path)) =
      restrictFS fs2 (toPath (expanduser env.home path))) :
    (clean_directory env fs1 path).1.1 = (clean_directory env fs2 path).1.1 ∧
    restrictFS (clean_directory env fs1 path).2 (toPath (expanduser env.home path)) =
      restrictFS (clean_directory env fs2 path).2 (toPath (expanduser env.home path)) := by
  have hex : fs_exists fs1 (toPath (expanduser env.home path)) =
      fs_exists fs2 (toPath (expanduser env.home path)) :=
    fs_exists_eq_of_restrict h _ (pfx_refl _)
  have hld : os_listdir fs1 (toPath (expanduser env.home path)) =
      os_listdir fs2 (toPath (expanduser env.home path)) :=
    listdir_eq_of_restrict h
  obtain ⟨h2, h1⟩ := removeLoop_eq_of_restrict
    (os_listdir fs1 (toPath (expanduser env.home path))) fs1 fs2
    (toPath (expanduser env.home path)) h
  constructor
  · rw [clean_directory_status, clean_directory_status, hex, ← hld, h2]
  · rw [clean_directory_snd, clean_directory_snd, hex, ← hld]
    by_cases he : fs_exists fs2 (toPath (expanduser env.home path)) = true
    · rw [if_pos he, if_pos he]
      exact h1
    · rw [if_neg he, if_neg he]
      exact h

theorem step_ok_shape {fs fs' : FS} {q : EPath}
    (h : (if fs_isdir fs q then shutil_rmtree fs q else os_remove fs q) = .ok fs') :
    ∃ K : FSNode → Bool, fs' = fs.filter K ∧ ∀ x, K x = false → pfx q x.path = true := by
  by_cases hd : fs_isdir fs q = true
  · rw [if_pos hd, shutil_rmtree] at h
    rcases hf : fs.find? (fun n => pfx q n.path && !n.removable) with _ | m
    · rw [hf] at h
      refine ⟨fun n => !(pfx q n.path), ?_, ?_⟩
      · cases h
        rfl
      · intro x hx
        simpa using hx
    · rw [hf] at h
      cases h
  · rw [if_neg hd, os_remove] at h
    rcases hf : fs.find? (fun n => n.path == q) with _ | m
    · rw [hf] at h
      cases h
    · rw [hf] at h
      by_cases hrm : m.removable = true
      · have h' : (if m.removable = true
            then Except.ok (ε := String) (fs.filter (fun x => !(x.path == q)))
            else Except.error m.errMsg) = Except.ok fs' := h
        rw [if_pos hrm] at h'
        refine ⟨fun x => !(x.path == q), ?_, ?_⟩
        · cases h'
          rfl
        · intro x hx
          have hxq : x.path = q := by simpa using hx
          rw [hxq]
          exact pfx_refl q
      · have h' : (if m.removable = true
            then Except.ok (ε := String) (fs.filter (fun x => !(x.path == q)))
            else Except.error m.errMsg) = Except.ok fs' := h
        rw [if_neg hrm] at h'
        cases h'

theorem removeLoop_filter_shape :
    ∀ (items : List String) (fs : FS) (base : EPath),
      ∃ P : FSNode → Bool, (removeLoop fs base items).1 = fs.filter P ∧
        ∀ x, P x = false → pfx base x.path = true := by
  intro items
  induction items with
  | nil =>
    intro fs base
    refine ⟨fun _ => true, ?_, by simp⟩
    simp [removeLoop]
  | cons i rest ih =>
    intro fs base
    cases hstep : (if fs_isdir fs (base ++ [i]) then shutil_rmtree fs (base ++ [i])
        else os_remove fs (base ++ [i])) with
    | error e =>
      refine ⟨fun _ => true, ?_, by simp⟩
      rw [removeLoop, hstep]
      simp
    | ok fs' =>
      obtain ⟨K, hK, hKs⟩ := step_ok_shape hstep
      obtain ⟨P', hP', hP's⟩ := ih fs' base
      refine ⟨fun a => P' a && K a, ?_, ?_⟩
      · rw [removeLoop, hstep]
        show (removeLoop fs' base rest).1 = _
        rw [hP', hK, List.filter_filter]
      · intro x hx
        cases hP : P' x
        · exact hP's x hP
        · cases hKx : K x
          · exact pfx_trans (pfx_append base [i]) (hKs x hKx)
          · simp [hP, hKx] at hx

theorem clean_directory_restrict_preserved (env : Env) (fs : FS) (path : String)
    (r' : EPath)
    (hd1 : pfx (toPath (expanduser env.home path)) r' = false)
    (hd2 : pfx r' (toPath (expanduser env.home path)) = false) :
    restrictFS (clean_directory env fs path).2 r' = restrictFS fs r' := by
  rw [clean_directory_snd]
  by_cases he : fs_exists fs (toPath (expanduser env.home path)) = true
  · rw [if_pos he]
    obtain ⟨P, hP, hsup⟩ := removeLoop_filter_shape
      (os_listdir fs (toPath (expanduser env.home path))) fs
      (toPath (expanduser env.home path))
    rw [hP, restrictFS_filter]
    rw [List.filter_eq_self]
    intro x hx
    have hxr : pfx r' x.path = true := by
      have := List.mem_filter.mp hx
      exact this.2
    cases hPx : P x
    · exfalso
      have hbase := hsup x hPx
      rcases pfx_comparable hbase hxr with hc | hc
      · rw [hc] at hd1
        simp at hd1
      · rw [hc] at hd2
        simp at hd2
    · rfl
  · rw [if_neg he]

theorem perform_cleanup_status_iso (env : Env) (rstar : EPath) :
    ∀ (cats : List Category) (fs1 fs2 : FS),
      (∀ c ∈ cats, c.type = "directory" ∨ c.type = "command") →
      List.Pairwise (fun c c' => c.type = "directory" → c'.type = "directory" →
        pfx (catRoot env c) (catRoot env c') = false ∧
        pfx (catRoot env c') (catRoot env c) = false) cats →
      (∀ c ∈ cats, c.type = "directory" → catRoot env c ≠ rstar →
        restrictFS fs1 (catRoot env c) = restrictFS fs2 (catRoot env c)) →
      ∀ j : Nat, ∀ cj : Category, cats.get? j = some cj →
        (cj.type = "command" ∨ (cj.type = "directory" ∧ catRoot env cj ≠ rstar)) →
        ((perform_cleanup env fs1 cats).1.get? j).map (fun o => o.success) =
          ((perform_cleanup env fs2 cats).1.get? j).map (fun o => o.success) := by
  intro cats
  induction cats with
  | nil =>
    intro fs1 fs2 _ _ _ j cj hj _
    simp at hj
  | cons c rest ih =>
    intro fs1 fs2 hk hpw hagr j cj hj hsel
    obtain ⟨hhead, htail⟩ := List.pairwise_cons.mp hpw
    have hktail : ∀ c' ∈ rest, c'.type = "directory" ∨ c'.type = "command" :=
      fun c' hc' => hk c' (List.mem_cons_of_mem c hc')
    rcases hk c (List.mem_cons_self c rest) with hcd | hcc
    · rw [perform_cleanup_cons_dir env fs1 c rest hcd,
        perform_cleanup_cons_dir env fs2 c rest hcd]
      cases j with
      | zero =>
        have hcj : cj = c := by
          simp at hj
          exact hj.symm
        subst hcj
        rcases hsel with hcmd | hsel2
        · rw [hcmd] at hcd
          simp at hcd
        · have hrs := hagr cj (List.mem_cons_self cj rest) hcd hsel2.2
          have hst := (clean_directory_eq_of_restrict env fs1 fs2 cj.path hrs).1
          simp only [List.get?_cons_zero, Option.map_some']
          rw [hst]
      | succ j' =>
        simp only [List.get?_cons_succ] at hj ⊢
        refine ih (clean_directory env fs1 c.path).2 (clean_directory env fs2 c.path).2
          hktail htail ?_ j' cj hj hsel
        intro c' hc' hdir' hne'
        have hdisj := hhead c' hc' hcd hdir'
        rw [clean_directory_restrict_preserved env fs1 c.path (catRoot env c')
            hdisj.1 hdisj.2,
          clean_directory_restrict_preserved env fs2 c.path (catRoot env c')
            hdisj.1 hdisj.2]
        exact hagr c' (List.mem_cons_of_mem c hc') hdir' hne'
    · rw [perform_cleanup_cons_cmd env fs1 c rest hcc,
        perform_cleanup_cons_cmd env fs2 c rest hcc]
      cases j with
      | zero => simp
      | succ j' =>
        simp only [List.get?_cons_succ] at hj ⊢
        exact ih fs1 fs2 hktail htail
          (fun c' hc' hd hn => hagr c' (List.mem_cons_of_mem c hc') hd hn) j' cj hj hsel

theorem countP_eq_one_of_single :
    ∀ (l : List CleanupResult) (i : Nat),
      ((l.get? i).map (fun o => o.success) = some false) →
      (∀ j, j ≠ i → ∀ b, l.get? j = some b → b.success = true) →
      l.countP (fun o => !o.success) = 1 := by
  intro l
  induction l with
  | nil =>
    intro i hi _
    simp at hi
  | cons a l ih =>
    intro i hi hall
    cases i with
    | zero =>
      have ha : a.success = false := by
        simp at hi
        exact hi
      have hz : l.countP (fun o => !o.success) = 0 := by
        refine List.countP_eq_zero.mpr (fun b hb => ?_)
        obtain ⟨n, hn⟩ := List.get?_of_mem hb
        have := hall (n + 1) (by omega) b (by simpa using hn)
        simp [this]
      rw [List.countP_cons]
      simp [hz, ha]
    | succ i' =>
      have ha : a.success = true := hall 0 (by omega) a (by simp)
      have hrec := ih i' (by simpa using hi) (fun j hj b hb =>
        hall (j + 1) (by omega) b (by simpa using hb))
      rw [List.countP_cons]
      simp [hrec, ha]

/-- C2: with pairwise-disjoint directory roots, a run in which target `i`'s
deletion fails (on a state differing from an all-successful run's state only
inside target `i`'s subtree) never aborts: it still yields one outcome per
target, exactly one outcome has `success = false`, and every other
position's success status is the same as in the run without the failure. -/
theorem perform_cleanup_single_failure_isolated (env : Env) (fs fs' : FS)
    (cats : List Category) (i : Nat) (ci : Category)
    (hk : ∀ c ∈ cats, c.type = "directory" ∨ c.type = "command")
    (hpw : List.Pairwise (fun c c' => c.type = "directory" → c'.type = "directory" →
      pfx (catRoot env c) (catRoot env c') = false ∧
      pfx (catRoot env c') (catRoot env c) = false) cats)
    (hci : cats.get? i = some ci) (hdir : ci.type = "directory")
    (hout : fs.filter (fun n => !(pfx (catRoot env ci) n.path)) =
      fs'.filter (fun n => !(pfx (catRoot env ci) n.path)))
    (hfail : ((perform_cleanup env fs cats).1.get? i).map (fun o => o.success) =
      some false)
    (hok : ∀ o ∈ (perform_cleanup env fs' cats).1, o.success = true) :
    (perform_cleanup env fs cats).1.length = cats.length ∧
    (perform_cleanup env fs cats).1.countP (fun o => !o.success) = 1 ∧
    ∀ j : Nat, j ≠ i →
      ((perform_cleanup env fs cats).1.get? j).map (fun o => o.success) =
        ((perform_cleanup env fs' cats).1.get? j).map (fun o => o.success) := by
  have hpwget := List.pairwise_iff_get.mp hpw
  obtain ⟨hilt, higet⟩ := List.get?_eq_some.mp hci
  have hdisj : ∀ (k : Nat) (hklt : k < cats.length), k ≠ i →
      (cats.get ⟨k, hklt⟩).type = "directory" →
      pfx (catRoot env (cats.get ⟨k, hklt⟩)) (catRoot env ci) = false ∧
      pfx (catRoot env ci) (catRoot env (cats.get ⟨k, hklt⟩)) = false := by
    intro k hklt hki hkd
    rcases Nat.lt_or_ge k i with hlt | hge
    · have hr := hpwget ⟨k, hklt⟩ ⟨i, hilt⟩ (Fin.mk_lt_mk.mpr hlt)
      rw [higet] at hr
      exact hr hkd hdir
    · have hlt2 : i < k := by omega
      have hr := hpwget ⟨i, hilt⟩ ⟨k, hklt⟩ (Fin.mk_lt_mk.mpr hlt2)
      rw [higet] at hr
      have h2 := hr hdir hkd
      exact ⟨h2.2, h2.1⟩
  have hagr : ∀ c ∈ cats, c.type = "directory" → catRoot env c ≠ catRoot env ci →
      restrictFS fs (catRoot env c) = restrictFS fs' (catRoot env c) := by
    intro c hc hcd hne
    obtain ⟨k, hkq⟩ := List.mem_iff_get?.mp hc
    obtain ⟨hklt, hkget⟩ := List.get?_eq_some.mp hkq
    have hki : k ≠ i := by
      intro hik
      subst hik
      rw [hkq] at hci
      cases hci
      exact hne rfl
    have hd := hdisj k hklt hki (by rw [hkget]; exact hcd)
    rw [hkget] at hd
    have hsup : ∀ x : FSNode, (pfx (catRoot env c) x.path) = true →
        (!(pfx (catRoot env ci) x.path)) = true := by
      intro x hx
      cases hstar : pfx (catRoot env ci) x.path
      · simp
      · exfalso
        rcases pfx_comparable hx hstar with hcc | hcc
        · have hfeq := hd.1 ▸ hcc
          simp at hfeq
        · have hfeq := hd.2 ▸ hcc
          simp at hfeq
    have h1 := filter_filter_support (l := fs)
      (q := fun n => !(pfx (catRoot env ci) n.path))
      (p := fun n => pfx (catRoot env c) n.path) hsup
    have h2 := filter_filter_support (l := fs')
      (q := fun n => !(pfx (catRoot env ci) n.path))
      (p := fun n => pfx (catRoot env c) n.path) hsup
    unfold restrictFS
    rw [← h1, ← h2, hout]
  have hsel : ∀ j, j ≠ i → ∀ cj : Category, cats.get? j = some cj →
      (cj.type = "command" ∨ (cj.type = "directory" ∧
        catRoot env cj ≠ catRoot env ci)) := by
    intro j hji cj hj
    rcases hk cj (List.get?_mem hj) with hd | hc
    · right
      refine ⟨hd, ?_⟩
      intro heq
      obtain ⟨hjlt, hjget⟩ := List.get?_eq_some.mp hj
      have hdd := hdisj j hjlt hji (by rw [hjget]; exact hd)
      rw [hjget] at hdd
      rw [heq] at hdd
      rw [pfx_refl] at hdd
      simp at hdd
    · left
      exact hc
  have hstat : ∀ j, j ≠ i →
      ((perform_cleanup env fs cats).1.get? j).map (fun o => o.success) =
        ((perform_cleanup env fs' cats).1.get? j).map (fun o => o.success) := by
    intro j hji
    rcases hgj : cats.get? j with _ | cj
    · have hlen1 : (perform_cleanup env fs cats).1.length = cats.length :=
        perform_cleanup_length env fs cats hk
      have hlen2 : (perform_cleanup env fs' cats).1.length = cats.length :=
        perform_cleanup_length env fs' cats hk
      have hge : cats.length ≤ j := List.get?_eq_none.mp hgj
      rw [List.get?_eq_none.mpr (by omega), List.get?_eq_none.mpr (by omega)]
    · exact perform_cleanup_status_iso env (catRoot env ci) cats fs fs' hk hpw hagr
        j cj hgj (hsel j hji cj hgj)
  have hallT : ∀ j, j ≠ i → ∀ b, (perform_cleanup env fs cats).1.get? j = some b →
      b.success = true := by
    intro j hji b hb
    have hst := hstat j hji
    rw [hb] at hst
    obtain ⟨b', hb', hbs⟩ := Option.map_eq_some'.mp hst.symm
    have hbs' : b'.success = b.success := by simpa using hbs
    rw [← hbs']
    exact hok b' (List.get?_mem hb')
  exact ⟨perform_cleanup_length env fs cats hk,
    countP_eq_one_of_single _ i hfail hallT, hstat⟩

/-- C2 witness: three targets (failing directory, command, healthy
directory); the failing run has exactly one failed outcome and the other two
positions match the fully-successful run. -/
theorem perform_cleanup_single_failure_isolated_witness :
    (∀ c ∈ [catDir, catSim, catDir2], c.type = "directory" ∨ c.type = "command") ∧
    List.Pairwise (fun c c' => c.type = "directory" → c'.type = "directory" →
      pfx (catRoot env1 c) (catRoot env1 c') = false ∧
      pfx (catRoot env1 c') (catRoot env1 c) = false) [catDir, catSim, catDir2] ∧
    [catDir, catSim, catDir2].get? 0 = some catDir ∧
    catDir.type = "directory" ∧
    fsFail.filter (fun n => !(pfx (catRoot env1 catDir) n.path)) =
      fsOk.filter (fun n => !(pfx (catRoot env1 catDir) n.path)) ∧
    ((perform_cleanup env1 fsFail [catDir, catSim, catDir2]).1.get? 0).map
      (fun o => o.success) = some false ∧
    (∀ o ∈ (perform_cleanup env1 fsOk [catDir, catSim, catDir2]).1,
      o.success = true) ∧
    ((perform_cleanup env1 fsFail [catDir, catSim, catDir2]).1.length =
        [catDir, catSim, catDir2].length ∧
      (perform_cleanup env1 fsFail [catDir, catSim, catDir2]).1.countP
        (fun o => !o.success) = 1 ∧
      ∀ j : Nat, j ≠ 0 →
        ((perform_cleanup env1 fsFail [catDir, catSim, catDir2]).1.get? j).map
          (fun o => o.success) =
        ((perform_cleanup env1 fsOk [catDir, catSim, catDir2]).1.get? j).map
          (fun o => o.success)) :=
  ⟨by decide, by decide, by decide, by decide, by decide, by decide, by decide,
    perform_cleanup_single_failure_isolated env1 fsFail fsOk
      [catDir, catSim, catDir2] 0 catDir
      (by decide) (by decide) (by decide) (by decide) (by decide) (by decide)
      (by decide)⟩

end XcodeCleanup
